import Mathlib

/-!
Shallow embedding of the slot-binding core of the `file-bind` VS Code
extension (`src/extension.ts`).  Slot tables are association lists from the
numeric slot key (the decimal string key of the persisted JSON object,
read as a natural number) to a binding.  JavaScript objects with
integer-like keys enumerate them in ascending numeric order and never hold
a duplicate key, so well-formed tables have strictly sorted keys; the
lemmas below that depend on enumeration order take a no-duplicate-keys
hypothesis.  File-system paths are strings; `path.relative` and
`path.join` from Node's posix path module are embedded segment-wise.
-/

namespace FileBind

/-- Tracking mode of a binding (`mode?: "auto" | "static"` in the source). -/
inductive Mode
  | auto
  | static
deriving DecidableEq

/-- One slot's content, mirroring `interface SlotBinding`.  `mode` is an
optional field in the TypeScript interface, hence `Option Mode` here. -/
structure SlotBinding where
  filePath : String
  line : Nat
  character : Nat
  mode : Option Mode
deriving DecidableEq

/-- Cursor position (`vscode.Position`). -/
structure Pos where
  line : Nat
  character : Nat
deriving DecidableEq

/-- The slot table: association list mirroring `type SlotRecord =
Record<string, SlotBinding>` with its integer-like keys. -/
abbrev SlotRecord := List (Nat × SlotBinding)

/-- Keys of a table occur at most once (always true of a JavaScript object). -/
def nodupKeys (t : SlotRecord) : Prop := (t.map (fun e => e.1)).Nodup

instance nodupKeysDecidable (t : SlotRecord) : Decidable (nodupKeys t) := by
  unfold nodupKeys
  infer_instance

/-- Reading `slots[k]` on the object. -/
def lookupSlot (t : SlotRecord) (k : Nat) : Option SlotBinding :=
  (t.find? (fun e => e.1 == k)).map (fun e => e.2)

/-- The effect of `delete updatedSlots[k]`. -/
def eraseSlot (t : SlotRecord) (k : Nat) : SlotRecord :=
  t.filter (fun e => e.1 != k)

/-- Insert a key/value pair at its numeric position, as JavaScript objects
order integer-like keys. -/
def insertSorted (k : Nat) (v : SlotBinding) : SlotRecord → SlotRecord
  | [] => [(k, v)]
  | e :: rest => if k < e.1 then (k, v) :: e :: rest else e :: insertSorted k v rest

/-- The effect of `updatedSlots[k] = v` on the object. -/
def setSlot (t : SlotRecord) (k : Nat) (v : SlotBinding) : SlotRecord :=
  insertSorted k v (eraseSlot t k)

/-- `Object.entries(slots).find(([_, b]) => b.filePath === p)`. -/
def findByPath (t : SlotRecord) (p : String) : Option (Nat × SlotBinding) :=
  t.find? (fun e => e.2.filePath == p)

/-! Path model: Node's posix `path` functions used by the source, embedded
over `/`-separated segments. -/

/-- Split a path into its nonempty `/`-separated segments. -/
def segsAux : List Char → List Char → List String
  | [], acc => if acc.isEmpty then [] else [String.mk acc.reverse]
  | c :: cs, acc =>
    if c = '/' then
      if acc.isEmpty then segsAux cs [] else String.mk acc.reverse :: segsAux cs []
    else segsAux cs (c :: acc)

/-- Segments of a path string. -/
def segs (s : String) : List String := segsAux s.toList []

/-- Rejoin segments with `/`. -/
def joinSegs (l : List String) : String := String.intercalate "/" l

/-- Length of the longest common prefix of two segment lists. -/
def commonPrefixLen : List String → List String → Nat
  | a :: as, b :: bs => if a = b then commonPrefixLen as bs + 1 else 0
  | _, _ => 0

/-- Node `path.relative(fromPath, toPath)` for already-absolute arguments:
walk up out of the non-shared part of `fromPath`, then down into the
non-shared part of `toPath`.  Equal paths give the empty string. -/
def pathRelative (fromPath toPath : String) : String :=
  let fs := segs fromPath
  let ts := segs toPath
  let c := commonPrefixLen fs ts
  joinSegs (List.replicate (fs.length - c) ".." ++ ts.drop c)

/-- Normalisation step of `path.join`: `.` segments vanish and `..` pops
the previous segment (clamped at the root for absolute paths). -/
def normSegs (l : List String) : List String :=
  l.foldl
    (fun acc s =>
      if s = "." then acc
      else if s = ".." then acc.dropLast
      else acc ++ [s])
    []

/-- Node `path.join(root, rel)` with an absolute `root`. -/
def pathJoin (root rel : String) : String :=
  "/" ++ joinSegs (normSegs (segs root ++ segs rel))

/-- Node `path.basename`. -/
def basename (p : String) : String := (segs p).getLastD ""

/-- `getWorkspaceRelativePath`: `null` when no workspace folder is open,
otherwise `path.relative(workspaceRoot, filePath)`. -/
def getWorkspaceRelativePath (root : Option String) (filePath : String) : Option String :=
  match root with
  | none => none
  | some r => some (pathRelative r filePath)

/-! The slot store (`getSlots`, `getSlotCount`). -/

/-- A persisted slot value: either the legacy plain-string form or a
binding object (whose `mode` may be absent). -/
inductive PersistedEntry
  | legacy (path : String)
  | binding (b : SlotBinding)
deriving DecidableEq

/-- Migration applied by `getSlots` to one persisted entry: a legacy string
becomes a full binding at `(0,0)` in `auto` mode, and a binding with a
missing `mode` is backfilled to `auto`. -/
def migrateEntry : PersistedEntry → SlotBinding
  | .legacy p => ⟨p, 0, 0, some .auto⟩
  | .binding b => { b with mode := some (b.mode.getD .auto) }

/-- `getSlots`: read the persisted table, migrating every entry. -/
def getSlots (persisted : List (Nat × PersistedEntry)) : SlotRecord :=
  persisted.map (fun e => (e.1, migrateEntry e.2))

/-- Lookup in the persisted (pre-migration) table. -/
def lookupPersisted (t : List (Nat × PersistedEntry)) (k : Nat) : Option PersistedEntry :=
  (t.find? (fun e => e.1 == k)).map (fun e => e.2)

/-- Upper bound on slots (`MAX_SLOT_COUNT = 9`). -/
def MAX_SLOT_COUNT : Nat := 9

/-- `getSlotCount`: the configured count clamped to `[1, 9]`. -/
def getSlotCount (raw : Nat) : Nat := min (max raw 1) MAX_SLOT_COUNT

/-! The binding resolver (`pinFileToSlot`, `moveSlot`, `updateSlot`,
`clearSlot`) and the command wrappers. -/

/-- `updateSlot`: write the new binding at the target slot, keeping the
slot's previous `mode` if it had one (`oldBinding?.mode ?? "auto"`). -/
def updateSlot (slots : SlotRecord) (slotNumber : Nat) (relativePath : String)
    (pos : Pos) : SlotRecord :=
  let oldBinding := lookupSlot slots slotNumber
  setSlot slots slotNumber
    ⟨relativePath, pos.line, pos.character, some ((oldBinding.bind (fun b => b.mode)).getD .auto)⟩

/-- `moveSlot`: vacate the source slot and recreate the binding at the
target slot, keeping the moved binding's `mode`
(`slots[fromSlot]?.mode ?? "auto"`). -/
def moveSlot (slots : SlotRecord) (fromSlot toSlot : Nat) (relativePath : String)
    (pos : Pos) : SlotRecord :=
  let updated := eraseSlot slots fromSlot
  setSlot updated toSlot
    ⟨relativePath, pos.line, pos.character,
      some (((lookupSlot slots fromSlot).bind (fun b => b.mode)).getD .auto)⟩

/-- `pinFileToSlot`: if the file is already bound to a different slot, move
it; otherwise (re)bind the target slot in place. -/
def pinFileToSlot (slots : SlotRecord) (slotNumber : Nat) (relativePath : String)
    (pos : Pos) : SlotRecord :=
  match findByPath slots relativePath with
  | some e =>
    if e.1 ≠ slotNumber then moveSlot slots e.1 slotNumber relativePath pos
    else updateSlot slots slotNumber relativePath pos
  | none => updateSlot slots slotNumber relativePath pos

/-- Outcome of the pin command. -/
inductive PinOutcome
  | slotDisabled (limit : Nat)
  | noActiveFile
  | outOfWorkspace
  | pinned
deriving DecidableEq

/-- The body of `registerPinCommand`'s callback: guard the slot count, the
active editor, and the relative path (`if (!relativePath)` rejects `null`
— no workspace — and the empty string), then pin.  The second component is
the single `config.update` write the call performs, `none` when it returns
without writing. -/
def pinCommand (rawSlotCount : Nat) (slots : SlotRecord) (root : Option String)
    (active : Option (String × Pos)) (slotNumber : Nat) :
    PinOutcome × Option SlotRecord :=
  let slotCount := getSlotCount rawSlotCount
  if slotNumber > slotCount then (.slotDisabled slotCount, none)
  else
    match active with
    | none => (.noActiveFile, none)
    | some (fsPath, pos) =>
      match getWorkspaceRelativePath root fsPath with
      | none => (.outOfWorkspace, none)
      | some rel =>
        if rel = "" then (.outOfWorkspace, none)
        else (.pinned, some (pinFileToSlot slots slotNumber rel pos))

/-- Outcome of the jump command.  `opened` is the successful
`openTextDocument`/`showTextDocument` path, which sets the selection to the
stored `(line, character)`; the interactive stale-slot repair offered when
the open fails depends on the file system and a user prompt and is outside
this embedding.  The disabled-slot branch returns before any state is read
or written. -/
inductive JumpOutcome
  | slotDisabled (limit : Nat)
  | slotEmpty
  | noWorkspace
  | opened (fullPath : String) (line character : Nat)
deriving DecidableEq

/-- The body of `registerJumpCommand`'s callback. -/
def jumpCommand (rawSlotCount : Nat) (slots : SlotRecord) (root : Option String)
    (slotNumber : Nat) : JumpOutcome :=
  let slotCount := getSlotCount rawSlotCount
  if slotNumber > slotCount then .slotDisabled slotCount
  else
    match lookupSlot slots slotNumber with
    | none => .slotEmpty
    | some binding =>
      match root with
      | none => .noWorkspace
      | some r => .opened (pathJoin r binding.filePath) binding.line binding.character

/-- Outcome of the clear command.  `alreadyEmpty` comes from the
`showInformationMessage` (non-error) path. -/
inductive ClearOutcome
  | slotDisabled (limit : Nat)
  | alreadyEmpty
  | cleared (fileName : String)
deriving DecidableEq

/-- The body of `registerClearCommand`'s callback; second component is the
single write (`clearSlot`'s `config.update`), `none` when the command
returns without writing. -/
def clearCommand (rawSlotCount : Nat) (slots : SlotRecord) (slotNumber : Nat) :
    ClearOutcome × Option SlotRecord :=
  let slotCount := getSlotCount rawSlotCount
  if slotNumber > slotCount then (.slotDisabled slotCount, none)
  else
    match lookupSlot slots slotNumber with
    | none => (.alreadyEmpty, none)
    | some binding =>
      (.cleared (basename binding.filePath), some (eraseSlot slots slotNumber))

/-! The tracking engine (`handleEditorLeave`). -/

/-- `handleEditorLeave`: when the left file's workspace-relative path
matches a slot's `filePath` and that binding's mode is `auto` (or absent),
overwrite the binding's `line`/`character` with the focus-loss position and
persist; in every other case return without writing (`none`). -/
def handleEditorLeave (root : Option String) (slots : SlotRecord)
    (fsPath : String) (pos : Pos) : Option SlotRecord :=
  match getWorkspaceRelativePath root fsPath with
  | none => none
  | some rel =>
    if rel = "" then none
    else
      match findByPath slots rel with
      | none => none
      | some e =>
        if (e.2.mode.getD .auto) ≠ .auto then none
        else some (setSlot slots e.1 { e.2 with line := pos.line, character := pos.character })

/-- Fold a sequence of focus-loss events over the table; an event that does
not write leaves the persisted table as it was. -/
def applyLeaves (root : Option String) (slots : SlotRecord)
    (leaves : List (String × Pos)) : SlotRecord :=
  leaves.foldl (fun t ev => (handleEditorLeave root t ev.1 ev.2).getD t) slots

/-! The consistency watcher (`handleFileDeletes`, `handleFileRenames`). -/

/-- Result of the delete handler: the table after the event, the slot keys
cleared, and the number of `config.update` calls performed. -/
structure DeleteResult where
  newSlots : SlotRecord
  cleared : List Nat
  writes : Nat
deriving DecidableEq

/-- `handleFileDeletes`: drop every slot whose resolved path is in the
deleted set; one batched write when anything was cleared. -/
def handleFileDeletes (root : Option String) (slots : SlotRecord)
    (deleted : List String) : DeleteResult :=
  match root with
  | none => ⟨slots, [], 0⟩
  | some r =>
    let hit := fun (e : Nat × SlotBinding) => deleted.contains (pathJoin r e.2.filePath)
    let cleared := (slots.filter hit).map (fun e => e.1)
    if cleared.isEmpty then ⟨slots, [], 0⟩
    else ⟨slots.filter (fun e => !(hit e)), cleared, 1⟩

/-- One entry of `vscode.FileRenameEvent.files`. -/
structure RenameEvent where
  oldPath : String
  newPath : String
deriving DecidableEq

/-- Result of the rename handler. -/
structure RenameResult where
  newSlots : SlotRecord
  updatedKeys : List Nat
  writes : Nat
deriving DecidableEq

/-- Value part of the per-entry step of `handleFileRenames`: the first
event whose old location resolves to this binding's file rewrites
`filePath` to the new location's workspace-relative path, spreading the
rest of the binding. -/
def renameValue (r : String) (events : List RenameEvent) (e : Nat × SlotBinding) :
    SlotBinding :=
  match events.find? (fun ev => ev.oldPath == pathJoin r e.2.filePath) with
  | some ev => { e.2 with filePath := pathRelative r ev.newPath }
  | none => e.2

/-- Per-entry step of `handleFileRenames`; the slot key is untouched. -/
def renameEntry (r : String) (events : List RenameEvent) (e : Nat × SlotBinding) :
    Nat × SlotBinding :=
  (e.1, renameValue r events e)

/-- `handleFileRenames`: rewrite every affected slot; one batched write
when anything was updated. -/
def handleFileRenames (root : Option String) (slots : SlotRecord)
    (events : List RenameEvent) : RenameResult :=
  match root with
  | none => ⟨slots, [], 0⟩
  | some r =>
    let hit := fun (e : Nat × SlotBinding) =>
      (events.find? (fun ev => ev.oldPath == pathJoin r e.2.filePath)).isSome
    let ups := (slots.filter hit).map (fun e => e.1)
    if ups.isEmpty then ⟨slots, [], 0⟩
    else ⟨slots.map (renameEntry r events), ups, 1⟩

/-! Basic lemmas about the table operations. -/

theorem lookupSlot_cons_self {e : Nat × SlotBinding} {t : SlotRecord} {k : Nat}
    (h : e.1 = k) : lookupSlot (e :: t) k = some e.2 := by
  unfold lookupSlot
  rw [List.find?_cons_of_pos _ (by simp [h])]
  rfl

theorem lookupSlot_cons_ne {e : Nat × SlotBinding} {t : SlotRecord} {k : Nat}
    (h : e.1 ≠ k) : lookupSlot (e :: t) k = lookupSlot t k := by
  unfold lookupSlot
  rw [List.find?_cons_of_neg _ (by simp [h])]

theorem lookupSlot_eq_none {t : SlotRecord} {k : Nat}
    (h : ∀ e ∈ t, e.1 ≠ k) : lookupSlot t k = none := by
  unfold lookupSlot
  rw [List.find?_eq_none.mpr (by intro e he; simpa using h e he)]
  rfl

theorem entry_of_lookupSlot {t : SlotRecord} {k : Nat} {b : SlotBinding}
    (h : lookupSlot t k = some b) : (k, b) ∈ t := by
  unfold lookupSlot at h
  cases hf : t.find? (fun e => e.1 == k) with
  | none => rw [hf] at h; simp at h
  | some e =>
    rw [hf] at h
    have hk : e.1 = k := by simpa using List.find?_some hf
    have hm : e ∈ t := List.mem_of_find?_eq_some hf
    have hb : e.2 = b := by simpa using h
    have : e = (k, b) := Prod.ext hk hb
    rw [this] at hm
    exact hm

theorem mem_eraseSlot {t : SlotRecord} {k : Nat} {e : Nat × SlotBinding}
    (h : e ∈ eraseSlot t k) : e ∈ t ∧ e.1 ≠ k := by
  unfold eraseSlot at h
  have := List.mem_filter.mp h
  exact ⟨this.1, by simpa using this.2⟩

theorem mem_insertSorted {t : SlotRecord} {k : Nat} {v : SlotBinding}
    {e : Nat × SlotBinding} (h : e ∈ insertSorted k v t) : e = (k, v) ∨ e ∈ t := by
  induction t with
  | nil => simpa [insertSorted] using h
  | cons hd tl ih =>
    unfold insertSorted at h
    by_cases hlt : k < hd.1
    · rw [if_pos hlt] at h
      rcases List.mem_cons.mp h with h1 | h1
      · exact Or.inl h1
      · exact Or.inr h1
    · rw [if_neg hlt] at h
      rcases List.mem_cons.mp h with h1 | h1
      · exact Or.inr (List.mem_cons.mpr (Or.inl h1))
      · rcases ih h1 with h2 | h2
        · exact Or.inl h2
        · exact Or.inr (List.mem_cons.mpr (Or.inr h2))

theorem mem_setSlot {t : SlotRecord} {k : Nat} {v : SlotBinding}
    {e : Nat × SlotBinding} (h : e ∈ setSlot t k v) :
    e = (k, v) ∨ (e ∈ t ∧ e.1 ≠ k) := by
  unfold setSlot at h
  rcases mem_insertSorted h with h1 | h1
  · exact Or.inl h1
  · exact Or.inr (mem_eraseSlot h1)

theorem lookupSlot_insertSorted_self {t : SlotRecord} {k : Nat} {v : SlotBinding}
    (h : ∀ e ∈ t, e.1 ≠ k) : lookupSlot (insertSorted k v t) k = some v := by
  induction t with
  | nil => exact lookupSlot_cons_self rfl
  | cons hd tl ih =>
    unfold insertSorted
    by_cases hlt : k < hd.1
    · rw [if_pos hlt]
      exact lookupSlot_cons_self rfl
    · rw [if_neg hlt]
      rw [lookupSlot_cons_ne (h hd (List.mem_cons_self hd tl))]
      exact ih (fun e he => h e (List.mem_cons.mpr (Or.inr he)))

theorem lookupSlot_insertSorted_ne {t : SlotRecord} {k k2 : Nat} {v : SlotBinding}
    (h : k2 ≠ k) : lookupSlot (insertSorted k v t) k2 = lookupSlot t k2 := by
  induction t with
  | nil =>
    rw [show insertSorted k v [] = [(k, v)] from rfl]
    exact lookupSlot_cons_ne (fun hk => h (hk.symm))
  | cons hd tl ih =>
    unfold insertSorted
    by_cases hlt : k < hd.1
    · rw [if_pos hlt]
      exact lookupSlot_cons_ne (fun hk => h (hk.symm))
    · rw [if_neg hlt]
      by_cases hk2 : hd.1 = k2
      · rw [lookupSlot_cons_self hk2, lookupSlot_cons_self hk2]
      · rw [lookupSlot_cons_ne hk2, lookupSlot_cons_ne hk2]
        exact ih

theorem lookupSlot_eraseSlot_self {t : SlotRecord} {k : Nat} :
    lookupSlot (eraseSlot t k) k = none :=
  lookupSlot_eq_none (fun e he => (mem_eraseSlot he).2)

theorem lookupSlot_eraseSlot_ne {t : SlotRecord} {k k2 : Nat}
    (h : k2 ≠ k) : lookupSlot (eraseSlot t k) k2 = lookupSlot t k2 := by
  induction t with
  | nil => rfl
  | cons hd tl ih =>
    unfold eraseSlot
    rw [List.filter_cons]
    by_cases hk : hd.1 = k
    · rw [if_neg (by simp [hk])]
      rw [lookupSlot_cons_ne (fun h2 => h (by rw [← h2]; exact hk))]
      exact ih
    · rw [if_pos (by simp [hk])]
      by_cases hk2 : hd.1 = k2
      · rw [lookupSlot_cons_self hk2, lookupSlot_cons_self hk2]
      · rw [lookupSlot_cons_ne hk2, lookupSlot_cons_ne hk2]
        exact ih

theorem lookupSlot_setSlot_self {t : SlotRecord} {k : Nat} {v : SlotBinding} :
    lookupSlot (setSlot t k v) k = some v :=
  lookupSlot_insertSorted_self (fun e he => (mem_eraseSlot he).2)

theorem lookupSlot_setSlot_ne {t : SlotRecord} {k k2 : Nat} {v : SlotBinding}
    (h : k2 ≠ k) : lookupSlot (setSlot t k v) k2 = lookupSlot t k2 := by
  unfold setSlot
  rw [lookupSlot_insertSorted_ne h]
  exact lookupSlot_eraseSlot_ne h

theorem nodupKeys_cons {e : Nat × SlotBinding} {t : SlotRecord} :
    nodupKeys (e :: t) ↔ (∀ x ∈ t, x.1 ≠ e.1) ∧ nodupKeys t := by
  unfold nodupKeys
  rw [List.map_cons, List.nodup_cons]
  constructor
  · rintro ⟨h1, h2⟩
    refine ⟨fun x hx hk => h1 ?_, h2⟩
    exact hk ▸ List.mem_map_of_mem _ hx
  · rintro ⟨h1, h2⟩
    refine ⟨fun hmem => ?_, h2⟩
    rcases List.mem_map.mp hmem with ⟨x, hx, hk⟩
    exact h1 x hx hk

theorem perm_insertSorted (t : SlotRecord) (k : Nat) (v : SlotBinding) :
    List.Perm (insertSorted k v t) ((k, v) :: t) := by
  induction t with
  | nil => exact List.Perm.refl _
  | cons hd tl ih =>
    unfold insertSorted
    by_cases hlt : k < hd.1
    · rw [if_pos hlt]
    · rw [if_neg hlt]
      exact List.Perm.trans (List.Perm.cons hd ih) (List.Perm.swap (k, v) hd tl)

theorem nodupKeys_eraseSlot {t : SlotRecord} {k : Nat}
    (h : nodupKeys t) : nodupKeys (eraseSlot t k) :=
  List.Nodup.sublist (List.Sublist.map _ (List.filter_sublist t)) h

theorem nodupKeys_setSlot {t : SlotRecord} {k : Nat} {v : SlotBinding}
    (h : nodupKeys t) : nodupKeys (setSlot t k v) := by
  have hperm : List.Perm ((setSlot t k v).map (fun e => e.1))
      (((k, v) :: eraseSlot t k).map (fun e => e.1)) :=
    List.Perm.map _ (perm_insertSorted _ _ _)
  unfold nodupKeys
  rw [List.Perm.nodup_iff hperm]
  exact (nodupKeys_cons.mpr ⟨fun x hx => (mem_eraseSlot hx).2, nodupKeys_eraseSlot h⟩)

theorem lookupSlot_of_mem {t : SlotRecord} {e : Nat × SlotBinding}
    (hnd : nodupKeys t) (he : e ∈ t) : lookupSlot t e.1 = some e.2 := by
  induction t with
  | nil => cases he
  | cons hd tl ih =>
    rcases List.mem_cons.mp he with h1 | h1
    · rw [h1]
      exact lookupSlot_cons_self rfl
    · have hcons := nodupKeys_cons.mp hnd
      rw [lookupSlot_cons_ne (fun hk => hcons.1 e h1 hk.symm)]
      exact ih hcons.2 h1

theorem findByPath_unique {t : SlotRecord} {s : Nat} {b : SlotBinding} {p : String}
    (hnd : nodupKeys t) (h1 : lookupSlot t s = some b) (hf : b.filePath = p)
    (huniq : ∀ e ∈ t, e.2.filePath = p → e.1 = s) :
    findByPath t p = some (s, b) := by
  have hmem : (s, b) ∈ t := entry_of_lookupSlot h1
  cases hfp : findByPath t p with
  | none =>
    exfalso
    have := List.find?_eq_none.mp hfp (s, b) hmem
    simp [hf] at this
  | some e =>
    have hp : e.2.filePath = p := by simpa using List.find?_some hfp
    have hm : e ∈ t := List.mem_of_find?_eq_some hfp
    have hk : e.1 = s := huniq e hm hp
    have hl : lookupSlot t s = some e.2 := hk ▸ lookupSlot_of_mem hnd hm
    rw [h1] at hl
    have : e = (s, b) := Prod.ext hk (by simpa using hl.symm)
    rw [this]

theorem lookupSlot_mapEntries {t : SlotRecord} (g : Nat × SlotBinding → SlotBinding)
    (k : Nat) :
    lookupSlot (t.map (fun e => (e.1, g e))) k =
      (t.find? (fun e => e.1 == k)).map (fun e => g e) := by
  induction t with
  | nil => rfl
  | cons hd tl ih =>
    by_cases hk : hd.1 = k
    · rw [List.map_cons,
        lookupSlot_cons_self (show ((hd.1, g hd) : Nat × SlotBinding).1 = k from hk),
        List.find?_cons_of_pos _ (by simp [hk])]
      rfl
    · rw [List.map_cons,
        lookupSlot_cons_ne (show ((hd.1, g hd) : Nat × SlotBinding).1 ≠ k from hk),
        List.find?_cons_of_neg _ (by simp [hk])]
      exact ih

theorem lookupSlot_filter {t : SlotRecord} (q : Nat × SlotBinding → Bool)
    {k : Nat} {b : SlotBinding} (hnd : nodupKeys t) (h : lookupSlot t k = some b) :
    lookupSlot (t.filter q) k = if q (k, b) then some b else none := by
  induction t with
  | nil => simp [lookupSlot] at h
  | cons hd tl ih =>
    have hcons := nodupKeys_cons.mp hnd
    by_cases hk : hd.1 = k
    · have hb : hd.2 = b := by
        have := lookupSlot_cons_self (t := tl) hk
        rw [h] at this
        simpa using this.symm
      have hde : hd = (k, b) := Prod.ext hk hb
      rw [List.filter_cons]
      by_cases hq : q hd
      · have hq2 : q (k, b) = true := by rw [← hde]; simpa using hq
        rw [if_pos (by simpa using hq), lookupSlot_cons_self hk, if_pos hq2, hb]
      · have hq2 : ¬ q (k, b) = true := by rw [← hde]; simpa using hq
        rw [if_neg (by simpa using hq)]
        rw [if_neg hq2]
        refine lookupSlot_eq_none (fun e he => ?_)
        have hmem := List.mem_filter.mp he
        exact fun hek => hcons.1 e hmem.1 (by rw [hek, ← hk])
    · rw [lookupSlot_cons_ne hk] at h
      rw [List.filter_cons]
      by_cases hq : q hd
      · rw [if_pos (by simpa using hq), lookupSlot_cons_ne hk]
        exact ih hcons.2 h
      · rw [if_neg (by simpa using hq)]
        exact ih hcons.2 h

/-! Characterisations of the handlers and of the pin operation. -/

theorem find?_of_lookupSlot {t : SlotRecord} {k : Nat} {b : SlotBinding}
    (h : lookupSlot t k = some b) :
    t.find? (fun e => e.1 == k) = some (k, b) := by
  unfold lookupSlot at h
  cases hf : t.find? (fun e => e.1 == k) with
  | none => rw [hf] at h; simp at h
  | some e =>
    rw [hf] at h
    have hk : e.1 = k := by simpa using List.find?_some hf
    have hb : e.2 = b := by simpa using h
    exact congrArg some (Prod.ext hk hb)

theorem handleEditorLeave_found {r : String} {slots : SlotRecord} {fsPath : String}
    (pos : Pos) {s : Nat} {b : SlotBinding}
    (hnd : nodupKeys slots) (h1 : lookupSlot slots s = some b)
    (hf : b.filePath = pathRelative r fsPath)
    (hne : pathRelative r fsPath ≠ "")
    (huniq : ∀ e ∈ slots, e.2.filePath = pathRelative r fsPath → e.1 = s) :
    handleEditorLeave (some r) slots fsPath pos =
      if (b.mode.getD Mode.auto) = Mode.auto
      then some (setSlot slots s ⟨b.filePath, pos.line, pos.character, b.mode⟩)
      else none := by
  have hfind : findByPath slots (pathRelative r fsPath) = some (s, b) :=
    findByPath_unique hnd h1 hf huniq
  by_cases hm : (b.mode.getD Mode.auto) = Mode.auto <;>
    simp [handleEditorLeave, getWorkspaceRelativePath, hne, hfind, hm]

theorem handleEditorLeave_nomatch {r : String} {slots : SlotRecord} {fsPath : String}
    (pos : Pos)
    (h : ∀ e ∈ slots, e.2.filePath ≠ pathRelative r fsPath) :
    handleEditorLeave (some r) slots fsPath pos = none := by
  have hfind : findByPath slots (pathRelative r fsPath) = none :=
    List.find?_eq_none.mpr (fun e he => by simpa using h e he)
  by_cases hne : pathRelative r fsPath = "" <;>
    simp [handleEditorLeave, getWorkspaceRelativePath, hne, hfind]

theorem handleEditorLeave_eq_some {root : Option String} {t : SlotRecord}
    {fs : String} {pos : Pos} {t2 : SlotRecord}
    (h : handleEditorLeave root t fs pos = some t2) :
    ∃ k v, t2 = setSlot t k v := by
  cases root with
  | none => simp [handleEditorLeave, getWorkspaceRelativePath] at h
  | some r =>
    by_cases hne : pathRelative r fs = ""
    · simp [handleEditorLeave, getWorkspaceRelativePath, hne] at h
    · cases hfind : findByPath t (pathRelative r fs) with
      | none => simp [handleEditorLeave, getWorkspaceRelativePath, hne, hfind] at h
      | some e =>
        by_cases hm : (e.2.mode.getD Mode.auto) ≠ Mode.auto
        · simp [handleEditorLeave, getWorkspaceRelativePath, hne, hfind, hm] at h
        · simp [handleEditorLeave, getWorkspaceRelativePath, hne, hfind, hm] at h
          exact ⟨e.1, _, h.symm⟩

theorem handleEditorLeave_preserves_static {root : Option String} {t : SlotRecord}
    {fs : String} {pos : Pos} {s : Nat} {b : SlotBinding}
    (hnd : nodupKeys t) (h : lookupSlot t s = some b)
    (hb : b.mode = some Mode.static) :
    lookupSlot ((handleEditorLeave root t fs pos).getD t) s = some b := by
  cases root with
  | none => simpa [handleEditorLeave, getWorkspaceRelativePath] using h
  | some r =>
    by_cases hne : pathRelative r fs = ""
    · simpa [handleEditorLeave, getWorkspaceRelativePath, hne] using h
    · cases hfind : findByPath t (pathRelative r fs) with
      | none => simpa [handleEditorLeave, getWorkspaceRelativePath, hne, hfind] using h
      | some e =>
        by_cases hm : (e.2.mode.getD Mode.auto) ≠ Mode.auto
        · simpa [handleEditorLeave, getWorkspaceRelativePath, hne, hfind, hm] using h
        · have hmem : e ∈ t := List.mem_of_find?_eq_some hfind
          have hks : e.1 ≠ s := by
            intro hk
            have hl := lookupSlot_of_mem hnd hmem
            rw [hk, h] at hl
            have heb : e.2 = b := by simpa using hl.symm
            rw [heb, hb] at hm
            simp at hm
          rw [show (handleEditorLeave (some r) t fs pos) =
              some (setSlot t e.1
                ⟨e.2.filePath, pos.line, pos.character, e.2.mode⟩) by
            simp [handleEditorLeave, getWorkspaceRelativePath, hne, hfind, hm]]
          rw [Option.getD_some, lookupSlot_setSlot_ne (Ne.symm hks)]
          exact h

theorem nodupKeys_leaveStep {root : Option String} {t : SlotRecord}
    {fs : String} {pos : Pos} (hnd : nodupKeys t) :
    nodupKeys ((handleEditorLeave root t fs pos).getD t) := by
  cases hle : handleEditorLeave root t fs pos with
  | none => simpa using hnd
  | some t2 =>
    obtain ⟨k, v, rfl⟩ := handleEditorLeave_eq_some hle
    simpa using nodupKeys_setSlot (k := k) (v := v) hnd

theorem applyLeaves_preserves_static {root : Option String} {s : Nat} {b : SlotBinding}
    (leaves : List (String × Pos)) :
    ∀ t : SlotRecord, nodupKeys t → lookupSlot t s = some b →
      b.mode = some Mode.static →
      lookupSlot (applyLeaves root t leaves) s = some b := by
  induction leaves with
  | nil => intro t _ h _; exact h
  | cons ev rest ih =>
    intro t hnd h hb
    have hstep : applyLeaves root t (ev :: rest) =
        applyLeaves root ((handleEditorLeave root t ev.1 ev.2).getD t) rest := rfl
    rw [hstep]
    exact ih _ (nodupKeys_leaveStep hnd)
      (handleEditorLeave_preserves_static hnd h hb) hb

theorem updateSlot_lookup_self (slots : SlotRecord) (s : Nat) (f : String) (p : Pos) :
    lookupSlot (updateSlot slots s f p) s =
      some ⟨f, p.line, p.character,
        some (((lookupSlot slots s).bind (fun b => b.mode)).getD Mode.auto)⟩ := by
  simp only [updateSlot]
  exact lookupSlot_setSlot_self

theorem moveSlot_lookup_self (slots : SlotRecord) (k0 s : Nat) (f : String) (p : Pos) :
    lookupSlot (moveSlot slots k0 s f p) s =
      some ⟨f, p.line, p.character,
        some (((lookupSlot slots k0).bind (fun b => b.mode)).getD Mode.auto)⟩ := by
  simp only [moveSlot]
  exact lookupSlot_setSlot_self

theorem pin_lookup_self (slots : SlotRecord) (s : Nat) (f : String) (p : Pos) :
    ∃ m, lookupSlot (pinFileToSlot slots s f p) s =
      some ⟨f, p.line, p.character, m⟩ := by
  cases hf : findByPath slots f with
  | none =>
    have hred : pinFileToSlot slots s f p = updateSlot slots s f p := by
      simp [pinFileToSlot, hf]
    rw [hred]
    exact ⟨_, updateSlot_lookup_self slots s f p⟩
  | some e =>
    by_cases he : e.1 = s
    · have hred : pinFileToSlot slots s f p = updateSlot slots s f p := by
        simp [pinFileToSlot, hf, he]
      rw [hred]
      exact ⟨_, updateSlot_lookup_self slots s f p⟩
    · have hred : pinFileToSlot slots s f p = moveSlot slots e.1 s f p := by
        simp [pinFileToSlot, hf, he]
      rw [hred]
      exact ⟨_, moveSlot_lookup_self slots e.1 s f p⟩

theorem nodupKeys_pin {slots : SlotRecord} (s : Nat) (f : String) (p : Pos)
    (hnd : nodupKeys slots) : nodupKeys (pinFileToSlot slots s f p) := by
  cases hf : findByPath slots f with
  | none =>
    have hred : pinFileToSlot slots s f p = updateSlot slots s f p := by
      simp [pinFileToSlot, hf]
    rw [hred]
    simp only [updateSlot]
    exact nodupKeys_setSlot hnd
  | some e =>
    by_cases he : e.1 = s
    · have hred : pinFileToSlot slots s f p = updateSlot slots s f p := by
        simp [pinFileToSlot, hf, he]
      rw [hred]
      simp only [updateSlot]
      exact nodupKeys_setSlot hnd
    · have hred : pinFileToSlot slots s f p = moveSlot slots e.1 s f p := by
        simp [pinFileToSlot, hf, he]
      rw [hred]
      simp only [moveSlot]
      exact nodupKeys_setSlot (nodupKeys_eraseSlot hnd)

theorem handleFileRenames_lookup (r : String) (slots : SlotRecord)
    (events : List RenameEvent) {k : Nat} {b : SlotBinding}
    (h : lookupSlot slots k = some b) :
    lookupSlot (handleFileRenames (some r) slots events).newSlots k =
      some (renameValue r events (k, b)) := by
  have hmem : (k, b) ∈ slots := entry_of_lookupSlot h
  have hfind := find?_of_lookupSlot h
  by_cases hup : ((slots.filter (fun e =>
      (events.find? (fun ev => ev.oldPath == pathJoin r e.2.filePath)).isSome)).map
        (fun e => e.1)).isEmpty
  · have hnil : slots.filter (fun e =>
        (events.find? (fun ev => ev.oldPath == pathJoin r e.2.filePath)).isSome) = [] := by
      rcases hl : slots.filter (fun e =>
        (events.find? (fun ev => ev.oldPath == pathJoin r e.2.filePath)).isSome) with _ | ⟨x, xs⟩
      · exact hl
      · rw [hl] at hup; simp at hup
    have hnohit : (events.find? (fun ev => ev.oldPath == pathJoin r b.filePath)) = none := by
      have := List.filter_eq_nil_iff.mp hnil (k, b) hmem
      simpa using this
    have hval : renameValue r events (k, b) = b := by
      unfold renameValue
      rw [show (events.find? (fun ev =>
        ev.oldPath == pathJoin r ((k, b) : Nat × SlotBinding).2.filePath)) = none from hnohit]
    rw [hval]
    simp only [handleFileRenames]
    rw [if_pos hup]
    exact h
  · simp only [handleFileRenames]
    rw [if_neg hup]
    rw [show slots.map (renameEntry r events) =
        slots.map (fun e => (e.1, renameValue r events e)) from rfl]
    rw [lookupSlot_mapEntries, hfind]
    rfl

theorem handleFileDeletes_lookup (r : String) (slots : SlotRecord)
    (deleted : List String) {k : Nat} {b : SlotBinding}
    (hnd : nodupKeys slots) (h : lookupSlot slots k = some b) :
    lookupSlot (handleFileDeletes (some r) slots deleted).newSlots k =
      (if deleted.contains (pathJoin r b.filePath) then none else some b) := by
  have hmem : (k, b) ∈ slots := entry_of_lookupSlot h
  by_cases hup : ((slots.filter (fun e =>
      deleted.contains (pathJoin r e.2.filePath))).map (fun e => e.1)).isEmpty
  · have hnil : slots.filter (fun e => deleted.contains (pathJoin r e.2.filePath)) = [] := by
      rcases hl : slots.filter (fun e => deleted.contains (pathJoin r e.2.filePath))
        with _ | ⟨x, xs⟩
      · exact hl
      · rw [hl] at hup; simp at hup
    have hnohit : deleted.contains (pathJoin r b.filePath) = false := by
      have := List.filter_eq_nil_iff.mp hnil (k, b) hmem
      simpa using this
    rw [hnohit]
    simp only [handleFileDeletes]
    rw [if_pos hup]
    exact h
  · simp only [handleFileDeletes]
    rw [if_neg hup]
    have := lookupSlot_filter
      (fun e => !(deleted.contains (pathJoin r e.2.filePath))) hnd h
    rw [this]
    cases hc : deleted.contains (pathJoin r b.filePath) with
    | false =>
      have hm2 : pathJoin r b.filePath ∉ deleted := by simpa using hc
      simp [hc, hm2]
    | true =>
      have hm2 : pathJoin r b.filePath ∈ deleted := by simpa using hc
      simp [hc, hm2]

theorem lookupSlot_getSlots (t : List (Nat × PersistedEntry)) (k : Nat) :
    lookupSlot (getSlots t) k = (lookupPersisted t k).map migrateEntry := by
  induction t with
  | nil => rfl
  | cons hd tl ih =>
    by_cases hk : hd.1 = k
    · rw [show getSlots (hd :: tl) = (hd.1, migrateEntry hd.2) :: getSlots tl from rfl,
        lookupSlot_cons_self
          (show ((hd.1, migrateEntry hd.2) : Nat × SlotBinding).1 = k from hk)]
      unfold lookupPersisted
      rw [List.find?_cons_of_pos _ (by simp [hk])]
      rfl
    · rw [show getSlots (hd :: tl) = (hd.1, migrateEntry hd.2) :: getSlots tl from rfl,
        lookupSlot_cons_ne
          (show ((hd.1, migrateEntry hd.2) : Nat × SlotBinding).1 ≠ k from hk)]
      unfold lookupPersisted
      rw [List.find?_cons_of_neg _ (by simp [hk])]
      exact ih

/-! Claim theorems. -/

/-- C1: the claim states that pinning a file outside the project root fails
with OutOfWorkspace and writes no binding, so stored paths never escape the
root.  The code instead computes `path.relative(root, file)`, which for a
file outside the root is a nonempty `..`-prefixed string, so the guard
`if (!relativePath)` does not fire: at root `/ws` with active file
`/outside.txt` the pin succeeds and writes the escaping relative path
`../outside.txt`, which resolves outside the workspace root. -/
theorem c1_pin_outside_workspace_accepted :
    pinCommand 3 [] (some "/ws") (some ("/outside.txt", ⟨0, 0⟩)) 1 =
      (PinOutcome.pinned, some [(1, ⟨"../outside.txt", 0, 0, some Mode.auto⟩)]) ∧
    (segs "../outside.txt").head? = some ".." ∧
    pathJoin "/ws" "../outside.txt" = "/outside.txt" := by
  refine ⟨?_, ?_, ?_⟩ <;> decide

/-- C2: pinning a file already bound (uniquely) at slot s1 to a different
slot s2 moves it: afterwards s2 holds the file at the new position with the
mode preserved from s1, s1 is empty, and no slot other than s2 holds the
file. -/
theorem c2_pin_move_unique (rawN : Nat) (slots : SlotRecord) (s1 s2 : Nat)
    (f : String) (p : Pos) (b : SlotBinding) (m : Mode)
    (hnd : nodupKeys slots)
    (h1 : lookupSlot slots s1 = some b)
    (hf : b.filePath = f)
    (hm : b.mode = some m)
    (huniq : ∀ e ∈ slots, e.2.filePath = f → e.1 = s1)
    (hen : s2 ≤ getSlotCount rawN)
    (hne : s2 ≠ s1) :
    lookupSlot (pinFileToSlot slots s2 f p) s2 = some ⟨f, p.line, p.character, some m⟩ ∧
    lookupSlot (pinFileToSlot slots s2 f p) s1 = none ∧
    (∀ e ∈ pinFileToSlot slots s2 f p, e.2.filePath = f → e.1 = s2) := by
  have hne1 : s1 ≠ s2 := fun h => hne h.symm
  have hfind : findByPath slots f = some (s1, b) := findByPath_unique hnd h1 hf huniq
  have hred : pinFileToSlot slots s2 f p = moveSlot slots s1 s2 f p := by
    simp [pinFileToSlot, hfind, hne1]
  have hmode : ((lookupSlot slots s1).bind (fun x => x.mode)).getD Mode.auto = m := by
    rw [h1]
    simp [hm]
  refine ⟨?_, ?_, ?_⟩
  · rw [hred]
    have hl := moveSlot_lookup_self slots s1 s2 f p
    rw [hmode] at hl
    exact hl
  · rw [hred]
    simp only [moveSlot]
    rw [lookupSlot_setSlot_ne hne1]
    exact lookupSlot_eraseSlot_self
  · rw [hred]
    intro e he hef
    simp only [moveSlot] at he
    rcases mem_setSlot he with h2 | h2
    · rw [h2]
    · exfalso
      have h3 := mem_eraseSlot h2.1
      exact h3.2 (huniq e h3.1 hef)

/-- C2 witness: moving `a.txt` from slot 1 to slot 2 at position (3,4). -/
theorem c2_pin_move_unique_witness :
    lookupSlot [(1, (⟨"a.txt", 0, 0, some Mode.auto⟩ : SlotBinding))] 1 =
      some ⟨"a.txt", 0, 0, some Mode.auto⟩ ∧
    (lookupSlot (pinFileToSlot [(1, ⟨"a.txt", 0, 0, some Mode.auto⟩)] 2 "a.txt" ⟨3, 4⟩) 2 =
        some ⟨"a.txt", 3, 4, some Mode.auto⟩ ∧
      lookupSlot (pinFileToSlot [(1, ⟨"a.txt", 0, 0, some Mode.auto⟩)] 2 "a.txt" ⟨3, 4⟩) 1 =
        none ∧
      (∀ e ∈ pinFileToSlot [(1, ⟨"a.txt", 0, 0, some Mode.auto⟩)] 2 "a.txt" ⟨3, 4⟩,
        e.2.filePath = "a.txt" → e.1 = 2)) :=
  ⟨by decide,
    c2_pin_move_unique 3 [(1, ⟨"a.txt", 0, 0, some Mode.auto⟩)] 1 2 "a.txt" ⟨3, 4⟩
      ⟨"a.txt", 0, 0, some Mode.auto⟩ Mode.auto (by decide) (by decide) (by decide)
      (by decide) (by decide) (by decide) (by decide)⟩

/-- C3: reading the persisted table migrates every legacy string entry to a
full binding at line 0, character 0 in auto mode, and backfills a missing
mode on object entries to auto; in particular the stored table
mapping slot 1 to the plain string a.txt reads as the full binding. -/
theorem c3_store_read_migration :
    (∀ (t : List (Nat × PersistedEntry)) (k : Nat) (p : String),
      lookupPersisted t k = some (PersistedEntry.legacy p) →
      lookupSlot (getSlots t) k = some ⟨p, 0, 0, some Mode.auto⟩) ∧
    (∀ (t : List (Nat × PersistedEntry)) (k : Nat) (b : SlotBinding),
      lookupPersisted t k = some (PersistedEntry.binding b) →
      lookupSlot (getSlots t) k =
        some ⟨b.filePath, b.line, b.character, some (b.mode.getD Mode.auto)⟩) ∧
    getSlots [(1, PersistedEntry.legacy "a.txt")] =
      [(1, ⟨"a.txt", 0, 0, some Mode.auto⟩)] := by
  refine ⟨?_, ?_, by decide⟩
  · intro t k p h
    rw [lookupSlot_getSlots, h]
    rfl
  · intro t k b h
    rw [lookupSlot_getSlots, h]
    rfl

/-- C3 witness: the legacy entry for slot 1 reads as a migrated binding. -/
theorem c3_store_read_migration_witness :
    lookupPersisted [(1, PersistedEntry.legacy "a.txt")] 1 =
      some (PersistedEntry.legacy "a.txt") ∧
    lookupSlot (getSlots [(1, PersistedEntry.legacy "a.txt")]) 1 =
      some ⟨"a.txt", 0, 0, some Mode.auto⟩ :=
  ⟨by decide, c3_store_read_migration.1 [(1, PersistedEntry.legacy "a.txt")] 1 "a.txt"
    (by decide)⟩

/-- C4: with any valid slot count, pinning a file to an enabled slot whose
resulting binding is in static mode and then jumping to that slot opens the
file with the cursor at exactly the pinned position, whatever focus-loss
events happen in between. -/
theorem c4_static_pin_jump_roundtrip (rawN : Nat) (slots : SlotRecord) (r : String)
    (s : Nat) (f : String) (p : Pos) (leaves : List (String × Pos)) (bnd : SlotBinding)
    (hnd : nodupKeys slots) (hs1 : 1 ≤ s) (hs : s ≤ getSlotCount rawN)
    (hpin : lookupSlot (pinFileToSlot slots s f p) s = some bnd)
    (hstatic : bnd.mode = some Mode.static) :
    jumpCommand rawN (applyLeaves (some r) (pinFileToSlot slots s f p) leaves) (some r) s =
      JumpOutcome.opened (pathJoin r f) p.line p.character := by
  obtain ⟨m, hm⟩ := pin_lookup_self slots s f p
  rw [hpin] at hm
  have hbnd : bnd = ⟨f, p.line, p.character, m⟩ := Option.some.inj hm
  have hpres : lookupSlot (applyLeaves (some r) (pinFileToSlot slots s f p) leaves) s =
      some bnd :=
    applyLeaves_preserves_static leaves _ (nodupKeys_pin s f p hnd) hpin hstatic
  have hnot : ¬ s > getSlotCount rawN := not_lt.mpr hs
  simp [jumpCommand, hnot, hpres, hbnd]

/-- C4 witness: re-pinning `a.txt` on a static slot at (5,2), leaving the
file and visiting another file, then jumping, lands at (5,2). -/
theorem c4_static_pin_jump_roundtrip_witness :
    lookupSlot (pinFileToSlot [(1, ⟨"a.txt", 0, 0, some Mode.static⟩)] 1 "a.txt" ⟨5, 2⟩) 1 =
      some ⟨"a.txt", 5, 2, some Mode.static⟩ ∧
    jumpCommand 3
      (applyLeaves (some "/ws")
        (pinFileToSlot [(1, ⟨"a.txt", 0, 0, some Mode.static⟩)] 1 "a.txt" ⟨5, 2⟩)
        [("/ws/a.txt", ⟨9, 9⟩), ("/ws/b.txt", ⟨1, 1⟩)])
      (some "/ws") 1 =
      JumpOutcome.opened "/ws/a.txt" 5 2 :=
  ⟨by decide,
    c4_static_pin_jump_roundtrip 3 [(1, ⟨"a.txt", 0, 0, some Mode.static⟩)] "/ws" 1 "a.txt"
      ⟨5, 2⟩ [("/ws/a.txt", ⟨9, 9⟩), ("/ws/b.txt", ⟨1, 1⟩)]
      ⟨"a.txt", 5, 2, some Mode.static⟩ (by decide) (by decide) (by decide) (by decide)
      (by decide)⟩

/-- C5: on a focus-loss event for a file whose relative path matches the
(unique) slot binding it, an auto (or absent) mode binding has its line and
character overwritten with the focus-loss position and the table is
persisted, with filePath and mode unchanged; a static binding, or a
non-matching file, causes no write at all. -/
theorem c5_focus_loss_tracking (r : String) (slots : SlotRecord) (fsPath : String)
    (pos : Pos) :
    (∀ (s : Nat) (b : SlotBinding),
      nodupKeys slots → lookupSlot slots s = some b →
      b.filePath = pathRelative r fsPath → pathRelative r fsPath ≠ "" →
      (∀ e ∈ slots, e.2.filePath = pathRelative r fsPath → e.1 = s) →
      ((b.mode = some Mode.auto ∨ b.mode = none →
        handleEditorLeave (some r) slots fsPath pos =
          some (setSlot slots s ⟨b.filePath, pos.line, pos.character, b.mode⟩)) ∧
       (b.mode = some Mode.static →
        handleEditorLeave (some r) slots fsPath pos = none))) ∧
    ((∀ e ∈ slots, e.2.filePath ≠ pathRelative r fsPath) →
      handleEditorLeave (some r) slots fsPath pos = none) := by
  constructor
  · intro s b hnd h1 hf hne huniq
    have hspec := handleEditorLeave_found pos hnd h1 hf hne huniq
    constructor
    · intro hmode
      rw [hspec]
      rcases hmode with hmode | hmode <;> simp [hmode]
    · intro hmode
      rw [hspec]
      simp [hmode]
  · exact handleEditorLeave_nomatch pos

/-- C5 witness: leaving `a.txt` (bound at slot 2 in auto mode) at (7,3)
updates slot 2's position. -/
theorem c5_focus_loss_tracking_witness :
    lookupSlot [(2, (⟨"a.txt", 0, 0, some Mode.auto⟩ : SlotBinding))] 2 =
      some ⟨"a.txt", 0, 0, some Mode.auto⟩ ∧
    handleEditorLeave (some "/ws") [(2, ⟨"a.txt", 0, 0, some Mode.auto⟩)] "/ws/a.txt"
      ⟨7, 3⟩ =
      some (setSlot [(2, ⟨"a.txt", 0, 0, some Mode.auto⟩)] 2 ⟨"a.txt", 7, 3, some Mode.auto⟩) :=
  ⟨by decide,
    ((c5_focus_loss_tracking "/ws" [(2, ⟨"a.txt", 0, 0, some Mode.auto⟩)] "/ws/a.txt"
      ⟨7, 3⟩).1 2 ⟨"a.txt", 0, 0, some Mode.auto⟩ (by decide) (by decide) (by decide)
      (by decide) (by decide)).1 (Or.inl rfl)⟩

/-- C6: on a rename event, every slot whose filePath resolves to an event's
old location is rewritten to the new location's workspace-relative path
with line, character and mode unchanged, and every non-matching slot keeps
its binding unchanged. -/
theorem c6_rename_repair (r : String) (slots : SlotRecord) (events : List RenameEvent)
    (k : Nat) (b : SlotBinding) (h : lookupSlot slots k = some b) :
    (∀ ev, events.find? (fun x => x.oldPath == pathJoin r b.filePath) = some ev →
      lookupSlot (handleFileRenames (some r) slots events).newSlots k =
        some ⟨pathRelative r ev.newPath, b.line, b.character, b.mode⟩) ∧
    (events.find? (fun x => x.oldPath == pathJoin r b.filePath) = none →
      lookupSlot (handleFileRenames (some r) slots events).newSlots k = some b) := by
  have hlook := handleFileRenames_lookup r slots events h
  constructor
  · intro ev hev
    rw [hlook]
    unfold renameValue
    rw [show (events.find? (fun x =>
      x.oldPath == pathJoin r ((k, b) : Nat × SlotBinding).2.filePath)) = some ev from hev]
  · intro hev
    rw [hlook]
    unfold renameValue
    rw [show (events.find? (fun x =>
      x.oldPath == pathJoin r ((k, b) : Nat × SlotBinding).2.filePath)) = none from hev]

/-- C6 witness: renaming `a.txt` to `sub/b.txt` rewrites slot 1's path and
keeps its position and mode. -/
theorem c6_rename_repair_witness :
    lookupSlot [(1, (⟨"a.txt", 5, 2, some Mode.auto⟩ : SlotBinding))] 1 =
      some ⟨"a.txt", 5, 2, some Mode.auto⟩ ∧
    lookupSlot (handleFileRenames (some "/ws") [(1, ⟨"a.txt", 5, 2, some Mode.auto⟩)]
      [⟨"/ws/a.txt", "/ws/sub/b.txt"⟩]).newSlots 1 =
      some ⟨"sub/b.txt", 5, 2, some Mode.auto⟩ :=
  ⟨by decide,
    (c6_rename_repair "/ws" [(1, ⟨"a.txt", 5, 2, some Mode.auto⟩)]
      [⟨"/ws/a.txt", "/ws/sub/b.txt"⟩] 1 ⟨"a.txt", 5, 2, some Mode.auto⟩ (by decide)).1
      ⟨"/ws/a.txt", "/ws/sub/b.txt"⟩ (by decide)⟩

/-- C7: on a delete event, exactly the slots whose filePath resolves into
the deleted set are removed, every other slot keeps its binding, and the
table is persisted exactly once when at least one slot was affected (and
not at all otherwise). -/
theorem c7_delete_repair (r : String) (slots : SlotRecord) (deleted : List String) :
    (∀ (k : Nat) (b : SlotBinding), nodupKeys slots → lookupSlot slots k = some b →
      (deleted.contains (pathJoin r b.filePath) = true →
        lookupSlot (handleFileDeletes (some r) slots deleted).newSlots k = none) ∧
      (deleted.contains (pathJoin r b.filePath) = false →
        lookupSlot (handleFileDeletes (some r) slots deleted).newSlots k = some b)) ∧
    ((∃ e ∈ slots, deleted.contains (pathJoin r e.2.filePath) = true) →
      (handleFileDeletes (some r) slots deleted).writes = 1) ∧
    ((∀ e ∈ slots, deleted.contains (pathJoin r e.2.filePath) = false) →
      (handleFileDeletes (some r) slots deleted).writes = 0 ∧
      (handleFileDeletes (some r) slots deleted).newSlots = slots) := by
  refine ⟨?_, ?_, ?_⟩
  · intro k b hnd h
    have hlook := handleFileDeletes_lookup r slots deleted hnd h
    constructor
    · intro hc
      rw [hlook, if_pos hc]
    · intro hc
      rw [hlook, if_neg (by rw [hc]; simp)]
  · rintro ⟨e, he, hc⟩
    have hmem : e ∈ slots.filter (fun x => deleted.contains (pathJoin r x.2.filePath)) :=
      List.mem_filter.mpr ⟨he, by simpa using hc⟩
    have hne : ¬ ((slots.filter (fun x =>
        deleted.contains (pathJoin r x.2.filePath))).map (fun x => x.1)).isEmpty := by
      rcases hl : slots.filter (fun x => deleted.contains (pathJoin r x.2.filePath))
        with _ | ⟨y, ys⟩
      · rw [hl] at hmem
        cases hmem
      · rw [hl]
        simp
    simp only [handleFileDeletes]
    rw [if_neg hne]
  · intro hall
    have hnil : slots.filter (fun x => deleted.contains (pathJoin r x.2.filePath)) = [] :=
      List.filter_eq_nil_iff.mpr (fun x hx => by rw [hall x hx]; simp)
    simp only [handleFileDeletes]
    rw [hnil]
    simp

/-- C7 witness: one event deleting the files of slots 1 and 2 removes both,
keeps slot 3, and performs exactly one write. -/
theorem c7_delete_repair_witness :
    lookupSlot [(1, (⟨"a.txt", 1, 1, some Mode.auto⟩ : SlotBinding)),
      (2, ⟨"b.txt", 2, 2, some Mode.auto⟩), (3, ⟨"c.txt", 3, 3, some Mode.auto⟩)] 1 =
      some ⟨"a.txt", 1, 1, some Mode.auto⟩ ∧
    lookupSlot (handleFileDeletes (some "/ws")
      [(1, ⟨"a.txt", 1, 1, some Mode.auto⟩), (2, ⟨"b.txt", 2, 2, some Mode.auto⟩),
        (3, ⟨"c.txt", 3, 3, some Mode.auto⟩)]
      ["/ws/a.txt", "/ws/b.txt"]).newSlots 1 = none ∧
    lookupSlot (handleFileDeletes (some "/ws")
      [(1, ⟨"a.txt", 1, 1, some Mode.auto⟩), (2, ⟨"b.txt", 2, 2, some Mode.auto⟩),
        (3, ⟨"c.txt", 3, 3, some Mode.auto⟩)]
      ["/ws/a.txt", "/ws/b.txt"]).newSlots 3 = some ⟨"c.txt", 3, 3, some Mode.auto⟩ ∧
    (handleFileDeletes (some "/ws")
      [(1, ⟨"a.txt", 1, 1, some Mode.auto⟩), (2, ⟨"b.txt", 2, 2, some Mode.auto⟩),
        (3, ⟨"c.txt", 3, 3, some Mode.auto⟩)]
      ["/ws/a.txt", "/ws/b.txt"]).writes = 1 :=
  ⟨by decide,
    ((c7_delete_repair "/ws"
      [(1, ⟨"a.txt", 1, 1, some Mode.auto⟩), (2, ⟨"b.txt", 2, 2, some Mode.auto⟩),
        (3, ⟨"c.txt", 3, 3, some Mode.auto⟩)]
      ["/ws/a.txt", "/ws/b.txt"]).1 1 ⟨"a.txt", 1, 1, some Mode.auto⟩ (by decide)
      (by decide)).1 (by decide),
    ((c7_delete_repair "/ws"
      [(1, ⟨"a.txt", 1, 1, some Mode.auto⟩), (2, ⟨"b.txt", 2, 2, some Mode.auto⟩),
        (3, ⟨"c.txt", 3, 3, some Mode.auto⟩)]
      ["/ws/a.txt", "/ws/b.txt"]).1 3 ⟨"c.txt", 3, 3, some Mode.auto⟩ (by decide)
      (by decide)).2 (by decide),
    (c7_delete_repair "/ws"
      [(1, ⟨"a.txt", 1, 1, some Mode.auto⟩), (2, ⟨"b.txt", 2, 2, some Mode.auto⟩),
        (3, ⟨"c.txt", 3, 3, some Mode.auto⟩)]
      ["/ws/a.txt", "/ws/b.txt"]).2.1
      ⟨(1, ⟨"a.txt", 1, 1, some Mode.auto⟩), by decide, by decide⟩⟩

/-- C8: pin, jump and clear on a slot number above the configured slot
count all fail with SlotDisabled carrying the current limit, and none of
them writes the table. -/
theorem c8_disabled_slot_commands (rawN : Nat) (slots : SlotRecord) (root : Option String)
    (active : Option (String × Pos)) (s : Nat) (h : s > getSlotCount rawN) :
    pinCommand rawN slots root active s = (PinOutcome.slotDisabled (getSlotCount rawN), none) ∧
    jumpCommand rawN slots root s = JumpOutcome.slotDisabled (getSlotCount rawN) ∧
    clearCommand rawN slots s = (ClearOutcome.slotDisabled (getSlotCount rawN), none) := by
  refine ⟨?_, ?_, ?_⟩ <;> simp [pinCommand, jumpCommand, clearCommand, h]

/-- C8 witness: with slot count 3, slot 5 is disabled for all three
commands. -/
theorem c8_disabled_slot_commands_witness :
    5 > getSlotCount 3 ∧
    pinCommand 3 [] none none 5 = (PinOutcome.slotDisabled (getSlotCount 3), none) ∧
    jumpCommand 3 [] none 5 = JumpOutcome.slotDisabled (getSlotCount 3) ∧
    clearCommand 3 [] 5 = (ClearOutcome.slotDisabled (getSlotCount 3), none) :=
  ⟨by decide,
    (c8_disabled_slot_commands 3 [] none none 5 (by decide)).1,
    (c8_disabled_slot_commands 3 [] none none 5 (by decide)).2.1,
    (c8_disabled_slot_commands 3 [] none none 5 (by decide)).2.2⟩

/-- C9: clearing an enabled slot that holds no binding reports AlreadyEmpty
through the informational path and performs no write, leaving the persisted
table untouched. -/
theorem c9_clear_empty_slot (rawN : Nat) (slots : SlotRecord) (s : Nat)
    (h1 : s ≤ getSlotCount rawN) (h2 : lookupSlot slots s = none) :
    clearCommand rawN slots s = (ClearOutcome.alreadyEmpty, none) := by
  have hnot : ¬ s > getSlotCount rawN := not_lt.mpr h1
  simp [clearCommand, hnot, h2]

/-- C9 witness: clearing empty slot 2 with slot count 3. -/
theorem c9_clear_empty_slot_witness :
    (2 ≤ getSlotCount 3 ∧
      lookupSlot [(1, (⟨"a.txt", 0, 0, some Mode.auto⟩ : SlotBinding))] 2 = none) ∧
    clearCommand 3 [(1, ⟨"a.txt", 0, 0, some Mode.auto⟩)] 2 =
      (ClearOutcome.alreadyEmpty, none) :=
  ⟨⟨by decide, by decide⟩,
    c9_clear_empty_slot 3 [(1, ⟨"a.txt", 0, 0, some Mode.auto⟩)] 2 (by decide) (by decide)⟩

/-- C10: the focus-loss, delete and rename handlers act on every slot key
in the table, including keys above the configured slot count: a binding
stored under a disabled slot is still auto-updated on focus loss, removed
when its file is deleted, and rewritten when its file is renamed. -/
theorem c10_handlers_ignore_slot_count (rawN : Nat) (k : Nat)
    (hk : k > getSlotCount rawN) :
    (∀ (r : String) (slots : SlotRecord) (fsPath : String) (pos : Pos) (b : SlotBinding),
      nodupKeys slots → lookupSlot slots k = some b →
      b.filePath = pathRelative r fsPath → pathRelative r fsPath ≠ "" →
      (∀ e ∈ slots, e.2.filePath = pathRelative r fsPath → e.1 = k) →
      b.mode = some Mode.auto →
      handleEditorLeave (some r) slots fsPath pos =
        some (setSlot slots k ⟨b.filePath, pos.line, pos.character, b.mode⟩)) ∧
    (∀ (r : String) (slots : SlotRecord) (deleted : List String) (b : SlotBinding),
      nodupKeys slots → lookupSlot slots k = some b →
      deleted.contains (pathJoin r b.filePath) = true →
      lookupSlot (handleFileDeletes (some r) slots deleted).newSlots k = none) ∧
    (∀ (r : String) (slots : SlotRecord) (events : List RenameEvent) (b : SlotBinding)
      (ev : RenameEvent),
      lookupSlot slots k = some b →
      events.find? (fun x => x.oldPath == pathJoin r b.filePath) = some ev →
      lookupSlot (handleFileRenames (some r) slots events).newSlots k =
        some ⟨pathRelative r ev.newPath, b.line, b.character, b.mode⟩) := by
  refine ⟨?_, ?_, ?_⟩
  · intro r slots fsPath pos b hnd h1 hf hne huniq hmode
    rw [handleEditorLeave_found pos hnd h1 hf hne huniq]
    simp [hmode]
  · intro r slots deleted b hnd h hc
    rw [handleFileDeletes_lookup r slots deleted hnd h, if_pos hc]
  · intro r slots events b ev h hev
    rw [handleFileRenames_lookup r slots events h]
    unfold renameValue
    rw [show (events.find? (fun x =>
      x.oldPath == pathJoin r ((k, b) : Nat × SlotBinding).2.filePath)) = some ev from hev]

/-- C10 witness: with slot count 3, a binding stored under disabled slot 5
is still auto-updated, delete-repaired and rename-repaired. -/
theorem c10_handlers_ignore_slot_count_witness :
    5 > getSlotCount 3 ∧
    handleEditorLeave (some "/ws") [(5, ⟨"a.txt", 0, 0, some Mode.auto⟩)] "/ws/a.txt"
      ⟨4, 1⟩ =
      some (setSlot [(5, ⟨"a.txt", 0, 0, some Mode.auto⟩)] 5 ⟨"a.txt", 4, 1, some Mode.auto⟩) ∧
    lookupSlot (handleFileDeletes (some "/ws") [(5, ⟨"a.txt", 2, 0, some Mode.auto⟩)]
      ["/ws/a.txt"]).newSlots 5 = none ∧
    lookupSlot (handleFileRenames (some "/ws") [(5, ⟨"a.txt", 2, 3, some Mode.static⟩)]
      [⟨"/ws/a.txt", "/ws/sub/b.txt"⟩]).newSlots 5 =
      some ⟨"sub/b.txt", 2, 3, some Mode.static⟩ :=
  ⟨by decide,
    (c10_handlers_ignore_slot_count 3 5 (by decide)).1 "/ws"
      [(5, ⟨"a.txt", 0, 0, some Mode.auto⟩)] "/ws/a.txt" ⟨4, 1⟩
      ⟨"a.txt", 0, 0, some Mode.auto⟩ (by decide) (by decide) (by decide) (by decide)
      (by decide) (by decide),
    (c10_handlers_ignore_slot_count 3 5 (by decide)).2.1 "/ws"
      [(5, ⟨"a.txt", 2, 0, some Mode.auto⟩)] ["/ws/a.txt"]
      ⟨"a.txt", 2, 0, some Mode.auto⟩ (by decide) (by decide) (by decide),
    (c10_handlers_ignore_slot_count 3 5 (by decide)).2.2 "/ws"
      [(5, ⟨"a.txt", 2, 3, some Mode.static⟩)] [⟨"/ws/a.txt", "/ws/sub/b.txt"⟩]
      ⟨"a.txt", 2, 3, some Mode.static⟩ ⟨"/ws/a.txt", "/ws/sub/b.txt"⟩ (by decide)
      (by decide)⟩

end FileBind
